import Mathlib

/-!
Verification of the EzValuation core against its specification.

The development shallowly embeds the core of the repository:
* `evaluate_criterion_value`, `gordon_growth_model`, `ipca_plus_valuation`
  and `calculate_weighted_score` from `src/utils/valuation.py`;
* the score-aggregation loop, the final-score guard and `classify_score`
  from `src/pages/analysis_wizard.py`;
* `get_active_methodology` from `src/utils/db.py`.

Python floats are modelled by `ℚ`, raised exceptions by `Except`,
dictionaries by association lists, and the absent/empty/null bound values
(`None`, `''`, `'null'`) by an explicit constructor.
-/

namespace EzValuation

/-! ### Range evaluator data model (src/utils/valuation.py, lines 273-310) -/

/-- A `min`/`max` field of a range record as the evaluator sees it:
`null` stands for Python `None`, `''` or `'null'` (resolved to -inf / +inf),
`num q` for a value `float()` parses to `q`, and `malformed` for a value on
which `float()` raises. -/
inductive BoundField where
  | null : BoundField
  | num (q : ℚ) : BoundField
  | malformed : BoundField
deriving DecidableEq

/-- One element of the `ranges` list: a band with bounds, a display label and
a point value (the other dict fields play no role in evaluation). -/
structure Band where
  min : BoundField
  max : BoundField
  label : String
  points : ℚ
deriving DecidableEq

/-- A value passed to the evaluator: Python `bool`, `int`/`float`, or any
other value (stringified by the categorical branch). -/
inductive PyValue where
  | bool (b : Bool) : PyValue
  | num (q : ℚ) : PyValue
  | str (s : String) : PyValue
deriving DecidableEq

/-- Python `str.lower` on one character, for the character repertoire of the
labels involved: ASCII `A`-`Z` and the Latin-1 uppercase letters
(`À`..`Þ` except `×`) map to their lowercase forms 32 codepoints up. -/
def pyLowerChar (c : Char) : Char :=
  if 65 ≤ c.toNat ∧ c.toNat ≤ 90 then Char.ofNat (c.toNat + 32)
  else if 192 ≤ c.toNat ∧ c.toNat ≤ 222 ∧ c.toNat ≠ 215 then Char.ofNat (c.toNat + 32)
  else c

/-- Python `str.lower`: lower every character. -/
def pyLower (s : String) : String := ⟨s.data.map pyLowerChar⟩

/-- `min_val = float(r['min']) if r['min'] not in [None, '', 'null'] else float('-inf')`
followed by the test `min_val <= value`; `float()` on a malformed field raises. -/
def minSat (b : BoundField) (v : ℚ) : Except Unit Bool :=
  match b with
  | .null => .ok true
  | .num q => .ok (decide (q ≤ v))
  | .malformed => .error ()

/-- `max_val = float(r['max']) if r['max'] not in [None, '', 'null'] else float('inf')`
followed by the test `value <= max_val`; `float()` on a malformed field raises. -/
def maxSat (b : BoundField) (v : ℚ) : Except Unit Bool :=
  match b with
  | .null => .ok true
  | .num q => .ok (decide (v ≤ q))
  | .malformed => .error ()

/-- The numeric loop of `evaluate_criterion_value`: walk the ranges in order,
resolve both bounds (either may raise), and return the first band whose
closed interval contains `v`. -/
def findNumeric (v : ℚ) : List Band → Except Unit (Option Band)
  | [] => .ok none
  | r :: rs =>
    match minSat r.min v with
    | .error _ => .error ()
    | .ok mn =>
      match maxSat r.max v with
      | .error _ => .error ()
      | .ok mx => if mn && mx then .ok (some r) else findNumeric v rs

/-- `evaluate_criterion_value(value, ranges)` (src/utils/valuation.py:273-310).
Booleans are dispatched first and matched by label against `"Sim"`/`"Não"`
case-insensitively; numbers are matched by interval with the whole loop
wrapped in `try/except` returning `None`; all other values are stringified
and matched by label. -/
def evaluate_criterion_value (value : PyValue) (ranges : List Band) : Option Band :=
  match value with
  | .bool b =>
    ranges.find? (fun r => pyLower r.label == pyLower (if b then "Sim" else "Não"))
  | .num v =>
    match findNumeric v ranges with
    | .ok res => res
    | .error _ => none
  | .str s =>
    ranges.find? (fun r => pyLower r.label == pyLower s)

/-- Specification-side lower-bound test: an absent `min` resolves to
negative infinity, so every value satisfies it; a malformed bound never
matches. -/
def minOk (b : BoundField) (v : ℚ) : Bool :=
  match b with
  | .null => true
  | .num q => decide (q ≤ v)
  | .malformed => false

/-- Specification-side upper-bound test: an absent `max` resolves to
positive infinity. -/
def maxOk (b : BoundField) (v : ℚ) : Bool :=
  match b with
  | .null => true
  | .num q => decide (v ≤ q)
  | .malformed => false

/-- Specification-side containment test: the closed interval `[min, max]`
(absent bounds resolved to ∓infinity) contains `v`, inclusive on both ends. -/
def containsQ (v : ℚ) (r : Band) : Bool :=
  minOk r.min v && maxOk r.max v

/-- Both bounds of the band parse as numbers or are absent. -/
def WellFormed (r : Band) : Prop := r.min ≠ .malformed ∧ r.max ≠ .malformed

instance (r : Band) : Decidable (WellFormed r) := by
  unfold WellFormed; infer_instance

/-- The bands' intervals are pairwise disjoint: no value is contained in two
of them. -/
def PairwiseDisjoint (l : List Band) : Prop :=
  l.Pairwise (fun r₁ r₂ => ∀ x : ℚ, ¬(containsQ x r₁ = true ∧ containsQ x r₂ = true))

/-! ### Valuation formulas (src/utils/valuation.py) -/

/-- `gordon_growth_model(dividend, growth_rate, discount_rate)`
(src/utils/valuation.py:74-91): raises `ValueError` when
`discount_rate <= growth_rate`, else returns `dividend / (discount_rate - growth_rate)`. -/
def gordon_growth_model (dividend growth_rate discount_rate : ℚ) : Except String ℚ :=
  if discount_rate ≤ growth_rate then
    .error "Taxa de desconto deve ser maior que taxa de crescimento"
  else
    .ok (dividend / (discount_rate - growth_rate))

/-! ### Score classification (src/pages/analysis_wizard.py:344-353) -/

/-- `classify_score(score)`: fixed breakpoints, inclusive on the lower bound. -/
def classify_score (score : ℚ) : String :=
  if score ≥ 8 then "🟢 Excelente"
  else if score ≥ 6 then "🟡 Bom"
  else if score ≥ 4 then "🟠 Médio"
  else "🔴 Fraco"

/-! ### Score aggregation (src/pages/analysis_wizard.py:128-224) -/

/-- One pillar as the aggregation loop sees it: its weight and the `points`
values of the criteria that were answered and evaluated (`pillar_results`);
a skipped or out-of-range criterion contributes no entry. -/
structure Pillar where
  weight : ℚ
  points : List ℚ
deriving DecidableEq

/-- `pillar_score = sum(r['points'] for r in pillar_results) / len(pillar_results)`:
the arithmetic mean of the points of the answered criteria. -/
def pillar_score (p : Pillar) : ℚ := p.points.sum / p.points.length

/-- Specification-side: the pillars with at least one answered criterion. -/
def contributing (pillars : List Pillar) : List Pillar :=
  pillars.filter (fun p => !p.points.isEmpty)

/-- The accumulation loop: starting from `total_score = 0, total_weight = 0`,
each pillar with a non-empty `pillar_results` adds
`pillar_score * weight` to the score and `weight` to the weight;
empty pillars are skipped (`if pillar_results:`). -/
def aggregate (pillars : List Pillar) : ℚ × ℚ :=
  pillars.foldl
    (fun acc p =>
      if p.points.isEmpty then acc
      else (acc.1 + pillar_score p * p.weight, acc.2 + p.weight))
    (0, 0)

/-- The final-score step (`if total_weight > 0: final_score = total_score / total_weight`);
`none` models the branch where no score is computed or displayed. -/
def final_score (pillars : List Pillar) : Option ℚ :=
  if 0 < (aggregate pillars).2 then
    some ((aggregate pillars).1 / (aggregate pillars).2)
  else none

/-- `calculate_weighted_score(scores, weights)` (src/utils/valuation.py:254-270),
dictionaries as association lists: returns `0` when the total weight is `0`,
else the weight-normalised sum of `scores.get(k, 0) * weights[k]` over the
keys of `weights`. -/
def calculate_weighted_score (scores weights : List (String × ℚ)) : ℚ :=
  let total_weight := (weights.map Prod.snd).sum
  if total_weight = 0 then 0
  else
    (weights.map (fun kw => ((scores.lookup kw.1).getD 0) * kw.2)).sum / total_weight

/-! ### IPCA+ valuation (src/utils/valuation.py:123-172) -/

/-- The dictionary returned by `ipca_plus_valuation`. -/
structure IpcaResult where
  fair_value : ℚ
  annual_return : ℚ
  projected_dividends : List ℚ
  terminal_value : ℚ
  ipca_used : ℚ
deriving DecidableEq

/-- `ipca_plus_valuation(supabase, dividend, premium, years)`: the IPCA value
read from the database is passed as the `ipca` parameter. The loop projects
`annual_dividend * (1+ipca)^year` for `year = 1..years`, accumulating the
present values; `projected_dividends[-1]` raises `IndexError` on an empty
list (`years = 0`), modelled by `Except`. -/
def ipca_plus_valuation (ipca dividend premium : ℚ) (years : ℕ) : Except Unit IpcaResult :=
  let discount_rate := ipca + premium
  let annual_dividend := dividend * 12
  let projected_dividends :=
    (List.range years).map (fun i => annual_dividend * (1 + ipca) ^ (i + 1))
  let pv_total :=
    ((List.range years).map
      (fun i => annual_dividend * (1 + ipca) ^ (i + 1) / (1 + discount_rate) ^ (i + 1))).sum
  match projected_dividends.getLast? with
  | none => .error ()
  | some lastDiv =>
    let terminal_dividend := lastDiv * (1 + ipca)
    let terminal_value := terminal_dividend / (discount_rate - ipca)
    let pv_terminal := terminal_value / (1 + discount_rate) ^ years
    .ok { fair_value := pv_total + pv_terminal
          annual_return := discount_rate
          projected_dividends := projected_dividends
          terminal_value := terminal_value
          ipca_used := ipca }

/-! ### Methodology store (src/utils/db.py:43-57) -/

/-- A row of `methodology_config`; `created_at` is a timestamp. -/
structure Methodology where
  id : ℕ
  created_at : ℕ
  is_active : Bool
deriving DecidableEq

/-- `get_active_methodology`: the query
`select * order by created_at desc limit 1` returns the most recently
created row — the `is_active` flag is never consulted. Modelled as the
fold computing the row with the greatest `created_at`. -/
def get_active_methodology (rows : List Methodology) : Option Methodology :=
  rows.foldl
    (fun acc r =>
      match acc with
      | none => some r
      | some a => if a.created_at < r.created_at then some r else some a)
    none

/-- A three-band disjoint configuration used as a concrete test input. -/
def demoBands : List Band :=
  [⟨.null, .num 3, "baixo", 2⟩, ⟨.num 4, .num 6, "médio", 5⟩, ⟨.num 7, .null, "alto", 8⟩]

/-- A band whose `max` field does not parse as a number. -/
def badBand : Band := ⟨.num 0, .malformed, "ruim", 1⟩

/-! ## Theorems -/

/-- `minSat` never raises on a well-formed bound and agrees with `minOk`. -/
theorem minSat_eq_ok (v : ℚ) {b : BoundField} (h : b ≠ .malformed) :
    minSat b v = .ok (minOk b v) := by
  cases b with
  | null => rfl
  | num q => rfl
  | malformed => exact absurd rfl h

/-- `maxSat` never raises on a well-formed bound and agrees with `maxOk`. -/
theorem maxSat_eq_ok (v : ℚ) {b : BoundField} (h : b ≠ .malformed) :
    maxSat b v = .ok (maxOk b v) := by
  cases b with
  | null => rfl
  | num q => rfl
  | malformed => exact absurd rfl h

/-- On well-formed bands the numeric loop never raises and returns the first
band containing the value. -/
theorem findNumeric_wf (v : ℚ) :
    ∀ l : List Band, (∀ r ∈ l, WellFormed r) →
      findNumeric v l = .ok (l.find? (fun r => containsQ v r)) := by
  intro l
  induction l with
  | nil => intro _; rfl
  | cons r rs ih =>
    intro h
    obtain ⟨h1, h2⟩ := h r (List.mem_cons_self r rs)
    have hrs : ∀ x ∈ rs, WellFormed x := fun x hx => h x (List.mem_cons_of_mem r hx)
    simp only [findNumeric, minSat_eq_ok v h1, maxSat_eq_ok v h2]
    by_cases hc : containsQ v r = true
    · rw [if_pos (show (minOk r.min v && maxOk r.max v) = true from hc),
        List.find?_cons_of_pos _ hc]
    · rw [if_neg (show ¬(minOk r.min v && maxOk r.max v) = true from hc), ih hrs,
        List.find?_cons_of_neg _ hc]

/-- A band returned by the numeric loop is an element of the list. -/
theorem findNumeric_ok_some_mem (v : ℚ) :
    ∀ (l : List Band) (r : Band), findNumeric v l = .ok (some r) → r ∈ l := by
  intro l
  induction l with
  | nil =>
    intro r h
    exact absurd h (by simp [findNumeric])
  | cons a as ih =>
    intro r h
    obtain ⟨amin, amax, albl, apts⟩ := a
    cases amin <;> cases amax <;>
      simp only [findNumeric, minSat, maxSat] at h <;>
      first
        | exact Except.noConfusion h
        | (split at h
           · injection h with h'
             injection h' with h''
             rw [← h'']
             exact List.mem_cons_self _ _
           · exact List.mem_cons_of_mem _ (ih r h))

/-- If no band contains the value, the numeric loop returns no match or
raises (it never returns a band). -/
theorem findNumeric_none_of_no_match (v : ℚ) :
    ∀ l : List Band, (∀ r ∈ l, containsQ v r = false) →
      findNumeric v l = .ok none ∨ findNumeric v l = .error () := by
  intro l
  induction l with
  | nil => intro _; exact Or.inl rfl
  | cons a as ih =>
    intro h
    have ha : containsQ v a = false := h a (List.mem_cons_self a as)
    have has : ∀ r ∈ as, containsQ v r = false :=
      fun r hr => h r (List.mem_cons_of_mem a hr)
    obtain ⟨amin, amax, albl, apts⟩ := a
    simp only [containsQ, minOk, maxOk] at ha
    cases amin <;> cases amax <;>
      simp only [findNumeric, minSat, maxSat]
    case null.null => rw [if_neg (by simp_all)]; exact ih has
    case null.num => rw [if_neg (by simp_all)]; exact ih has
    case num.null => rw [if_neg (by simp_all)]; exact ih has
    case num.num => rw [if_neg (by simp_all)]; exact ih has
    all_goals exact Or.inr trivial

/-- If some band with a malformed bound is reached (every earlier band is a
non-match), the numeric loop raises. -/
theorem findNumeric_error_of_malformed (v : ℚ) :
    ∀ (l₁ : List Band) (r : Band) (l₂ : List Band), ¬ WellFormed r →
      (∀ r' ∈ l₁, containsQ v r' = false) →
      findNumeric v (l₁ ++ r :: l₂) = .error () := by
  intro l₁
  induction l₁ with
  | nil =>
    intro r l₂ hmal _
    obtain ⟨rmin, rmax, rlbl, rpts⟩ := r
    rw [List.nil_append]
    by_cases hm : rmin = .malformed
    · subst hm
      simp [findNumeric, minSat]
    · have hM : rmax = .malformed := by
        by_contra hM
        exact hmal ⟨hm, hM⟩
      subst hM
      cases rmin with
      | malformed => exact absurd rfl hm
      | null => simp [findNumeric, minSat, maxSat]
      | num q => simp [findNumeric, minSat, maxSat]
  | cons a l₁ ih =>
    intro r l₂ hmal h
    have ha : containsQ v a = false := h a (List.mem_cons_self a l₁)
    have h' : ∀ r' ∈ l₁, containsQ v r' = false :=
      fun r' hr' => h r' (List.mem_cons_of_mem a hr')
    obtain ⟨amin, amax, albl, apts⟩ := a
    simp only [containsQ, minOk, maxOk] at ha
    rw [List.cons_append]
    cases amin <;> cases amax <;>
      simp only [findNumeric, minSat, maxSat]
    case null.null => rw [if_neg (by simp_all)]; exact ih r l₂ hmal h'
    case null.num => rw [if_neg (by simp_all)]; exact ih r l₂ hmal h'
    case num.null => rw [if_neg (by simp_all)]; exact ih r l₂ hmal h'
    case num.num => rw [if_neg (by simp_all)]; exact ih r l₂ hmal h'

/-- Claim C3: `gordon_growth_model(dividend, growth_rate, discount_rate)`
raises an invalid-parameter error if and only if `discount_rate <= growth_rate`,
and otherwise returns exactly `dividend / (discount_rate - growth_rate)`. -/
theorem gordon_error_iff_c3 (d g r : ℚ) :
    ((∃ e, gordon_growth_model d g r = .error e) ↔ r ≤ g)
    ∧ (g < r → gordon_growth_model d g r = .ok (d / (r - g))) := by
  constructor
  · constructor
    · rintro ⟨e, he⟩
      by_contra hgt
      rw [gordon_growth_model, if_neg hgt] at he
      exact Except.noConfusion he
    · intro hle
      exact ⟨_, by rw [gordon_growth_model, if_pos hle]⟩
  · intro hlt
    rw [gordon_growth_model, if_neg (not_le.mpr hlt)]

/-- Witness for C3: the spec's two Gordon examples. -/
theorem gordon_error_iff_c3_witness :
    ((3 : ℚ) / 100 < 10 / 100
      ∧ gordon_growth_model 120 (3 / 100) (10 / 100) = .ok (120 / (10 / 100 - 3 / 100)))
    ∧ ((5 : ℚ) / 100 ≤ 10 / 100
      ∧ ∃ e, gordon_growth_model 100 (10 / 100) (5 / 100) = .error e) :=
  ⟨⟨by norm_num, (gordon_error_iff_c3 120 (3 / 100) (10 / 100)).2 (by norm_num)⟩,
   ⟨by norm_num, (gordon_error_iff_c3 100 (10 / 100) (5 / 100)).1.mpr (by norm_num)⟩⟩

/-- Claim C6: `classify_score` maps a final score to an ordinal label via
fixed breakpoints, inclusive on the lower bound of each band: `s ≥ 8` is the
excellent band, `6 ≤ s < 8` the good band, `4 ≤ s < 6` the medium band and
`s < 4` the weak band. -/
theorem classify_score_bands_c6 (s : ℚ) :
    (8 ≤ s → classify_score s = "🟢 Excelente")
    ∧ (6 ≤ s → s < 8 → classify_score s = "🟡 Bom")
    ∧ (4 ≤ s → s < 6 → classify_score s = "🟠 Médio")
    ∧ (s < 4 → classify_score s = "🔴 Fraco") := by
  unfold classify_score
  refine ⟨fun h => ?_, fun h1 h2 => ?_, fun h1 h2 => ?_, fun h => ?_⟩
  · rw [if_pos h]
  · rw [if_neg (not_le.mpr h2), if_pos h1]
  · rw [if_neg (not_le.mpr (by linarith)), if_neg (not_le.mpr h2), if_pos h1]
  · rw [if_neg (not_le.mpr (by linarith)), if_neg (not_le.mpr (by linarith)),
      if_neg (not_le.mpr h)]

/-- Witness for C6: the spec's boundary examples 8.0, 7.999, 4.0 and 3.999. -/
theorem classify_score_bands_c6_witness :
    classify_score 8 = "🟢 Excelente"
    ∧ classify_score (7999 / 1000) = "🟡 Bom"
    ∧ classify_score 4 = "🟠 Médio"
    ∧ classify_score (3999 / 1000) = "🔴 Fraco" :=
  ⟨(classify_score_bands_c6 8).1 (by norm_num),
   (classify_score_bands_c6 (7999 / 1000)).2.1 (by norm_num) (by norm_num),
   (classify_score_bands_c6 4).2.2.1 (by norm_num) (by norm_num),
   (classify_score_bands_c6 (3999 / 1000)).2.2.2 (by norm_num)⟩

/-- Claim C2: on well-formed ranges, the numeric evaluator resolves absent
bounds to ∓infinity and returns the first range (in the given list order)
whose closed interval contains the value; for pairwise-disjoint ranges it
returns the unique covering range. -/
theorem evaluate_numeric_first_match_c2 (v : ℚ) (ranges : List Band)
    (hwf : ∀ r ∈ ranges, WellFormed r) :
    evaluate_criterion_value (.num v) ranges = ranges.find? (fun r => containsQ v r)
    ∧ (PairwiseDisjoint ranges →
        ∀ r ∈ ranges, containsQ v r = true →
          evaluate_criterion_value (.num v) ranges = some r) := by
  have h1 : evaluate_criterion_value (.num v) ranges
      = ranges.find? (fun r => containsQ v r) := by
    show (match findNumeric v ranges with
          | .ok res => res
          | .error _ => none) = _
    rw [findNumeric_wf v ranges hwf]
  refine ⟨h1, fun hdisj r hr hcont => ?_⟩
  rw [h1]
  have hsome : (ranges.find? (fun r => containsQ v r)).isSome :=
    List.find?_isSome.mpr ⟨r, hr, hcont⟩
  obtain ⟨r', hr'⟩ := Option.isSome_iff_exists.mp hsome
  have hpr' : containsQ v r' = true := List.find?_some hr'
  have hmem' : r' ∈ ranges := List.mem_of_find?_eq_some hr'
  rcases eq_or_ne r' r with he | hne
  · rw [hr', he]
  · exfalso
    have hsymm : Symmetric (fun r₁ r₂ : Band =>
        ∀ x : ℚ, ¬(containsQ x r₁ = true ∧ containsQ x r₂ = true)) :=
      fun a b hab x hx => hab x ⟨hx.2, hx.1⟩
    exact (List.Pairwise.forall hsymm hdisj hmem' hr hne) v ⟨hpr', hcont⟩

/-- Witness for C2 on a concrete disjoint three-band configuration. -/
theorem evaluate_numeric_first_match_c2_witness :
    (∀ r ∈ demoBands, WellFormed r)
    ∧ (evaluate_criterion_value (.num 5) demoBands
        = demoBands.find? (fun r => containsQ 5 r)
      ∧ (PairwiseDisjoint demoBands →
          ∀ r ∈ demoBands, containsQ 5 r = true →
            evaluate_criterion_value (.num 5) demoBands = some r)) :=
  ⟨by decide, evaluate_numeric_first_match_c2 5 demoBands (by decide)⟩

/-- Claim C7: the numeric evaluator never crashes — it returns a member
range or `none`; it returns `none` when no range matches, and also when a
malformed (non-numeric) bound is encountered during comparison, the
exception being caught inside the evaluator. -/
theorem evaluate_none_on_exception_c7 (v : ℚ) (ranges : List Band) :
    (evaluate_criterion_value (.num v) ranges = none
      ∨ ∃ r ∈ ranges, evaluate_criterion_value (.num v) ranges = some r)
    ∧ ((∀ r ∈ ranges, containsQ v r = false) →
        evaluate_criterion_value (.num v) ranges = none)
    ∧ (∀ l₁ r l₂, ranges = l₁ ++ r :: l₂ → ¬ WellFormed r →
        (∀ r' ∈ l₁, containsQ v r' = false) →
        evaluate_criterion_value (.num v) ranges = none) := by
  refine ⟨?_, fun h => ?_, fun l₁ r l₂ hsplit hmal hpre => ?_⟩
  · cases hf : findNumeric v ranges with
    | error e =>
      left
      simp [evaluate_criterion_value, hf]
    | ok o =>
      cases o with
      | none =>
        left
        simp [evaluate_criterion_value, hf]
      | some r =>
        right
        exact ⟨r, findNumeric_ok_some_mem v ranges r hf,
          by simp [evaluate_criterion_value, hf]⟩
  · rcases findNumeric_none_of_no_match v ranges h with hf | hf <;>
      simp [evaluate_criterion_value, hf]
  · subst hsplit
    have hf := findNumeric_error_of_malformed v l₁ r l₂ hmal hpre
    simp [evaluate_criterion_value, hf]

/-- Witness for C7: a single band whose `max` does not parse; the evaluator
returns `none` instead of propagating the exception. -/
theorem evaluate_none_on_exception_c7_witness :
    (¬ WellFormed badBand)
    ∧ evaluate_criterion_value (.num 5) [badBand] = none :=
  ⟨by decide,
   (evaluate_none_on_exception_c7 5 [badBand]).2.2 [] badBand [] rfl
     (by decide) (by decide)⟩

/-- Claim C8: the boolean branch maps `True` to the token `"Sim"` and
`False` to `"Não"` and returns the first range whose label equals that token
case-insensitively; if some range carries the token as label (in any case),
a range with that label is returned. -/
theorem evaluate_bool_label_c8 (b : Bool) (ranges : List Band) :
    (∀ l₁ r l₂, ranges = l₁ ++ r :: l₂ →
        pyLower r.label = pyLower (if b then "Sim" else "Não") →
        (∀ r' ∈ l₁, pyLower r'.label ≠ pyLower (if b then "Sim" else "Não")) →
        evaluate_criterion_value (.bool b) ranges = some r)
    ∧ ((∃ r ∈ ranges, pyLower r.label = pyLower (if b then "Sim" else "Não")) →
        ∃ r, evaluate_criterion_value (.bool b) ranges = some r
          ∧ pyLower r.label = pyLower (if b then "Sim" else "Não")) := by
  constructor
  · intro l₁ r l₂ hsplit hmatch hbefore
    subst hsplit
    show (l₁ ++ r :: l₂).find?
        (fun r => pyLower r.label == pyLower (if b then "Sim" else "Não")) = some r
    revert hbefore
    induction l₁ with
    | nil =>
      intro _
      rw [List.nil_append]
      exact List.find?_cons_of_pos _ (by simp [hmatch])
    | cons a as ih =>
      intro hbefore
      rw [List.cons_append,
        List.find?_cons_of_neg _ (by simpa using hbefore a (List.mem_cons_self a as))]
      exact ih (fun r' hr' => hbefore r' (List.mem_cons_of_mem a hr'))
  · rintro ⟨r, hr, hmatch⟩
    have hsome : (ranges.find?
        (fun r => pyLower r.label == pyLower (if b then "Sim" else "Não"))).isSome :=
      List.find?_isSome.mpr ⟨r, hr, by simp [hmatch]⟩
    obtain ⟨r', hr'⟩ := Option.isSome_iff_exists.mp hsome
    exact ⟨r', hr', by simpa using List.find?_some hr'⟩

/-- Witness for C8: an upper-case `"SIM"` label matches `True`, an
upper-case `"NÃO"` label matches `False`. -/
theorem evaluate_bool_label_c8_witness :
    (pyLower "SIM" = pyLower "Sim"
      ∧ evaluate_criterion_value (.bool true) [⟨.null, .null, "SIM", 10⟩]
          = some ⟨.null, .null, "SIM", 10⟩)
    ∧ (pyLower "NÃO" = pyLower "Não"
      ∧ evaluate_criterion_value (.bool false) [⟨.null, .null, "NÃO", 0⟩]
          = some ⟨.null, .null, "NÃO", 0⟩) :=
  ⟨⟨by decide,
    (evaluate_bool_label_c8 true [⟨.null, .null, "SIM", 10⟩]).1
      [] ⟨.null, .null, "SIM", 10⟩ [] rfl (by decide) (by decide)⟩,
   ⟨by decide,
    (evaluate_bool_label_c8 false [⟨.null, .null, "NÃO", 0⟩]).1
      [] ⟨.null, .null, "NÃO", 0⟩ [] rfl (by decide) (by decide)⟩⟩

/-- Claim C10: a boolean value is matched only by label, never by numeric
interval: the boolean branch is the label search; replacing every range's
bounds changes nothing about the result; and `True` does not match a band
whose interval contains `1` (Python's numeric value of `True`) when the
label differs. -/
theorem evaluate_bool_ignores_bounds_c10 (b : Bool) (ranges : List Band) :
    (evaluate_criterion_value (.bool b) ranges
      = ranges.find? (fun r => pyLower r.label == pyLower (if b then "Sim" else "Não")))
    ∧ (∀ m m' : BoundField,
        evaluate_criterion_value (.bool b)
            (ranges.map (fun r => ⟨m, m', r.label, r.points⟩))
          = (evaluate_criterion_value (.bool b) ranges).map
              (fun r => ⟨m, m', r.label, r.points⟩))
    ∧ containsQ 1 ⟨.num 0, .num 2, "Alto", 5⟩ = true
    ∧ evaluate_criterion_value (.bool true) [⟨.num 0, .num 2, "Alto", 5⟩] = none := by
  refine ⟨rfl, fun m m' => ?_, ?_, ?_⟩
  · show (ranges.map _).find? _ = (ranges.find? _).map _
    rw [List.find?_map]
    rfl
  · decide
  · decide

/-- Unfolding the aggregation fold from an arbitrary accumulator. -/
theorem aggregate_foldl (ps : List Pillar) :
    ∀ acc : ℚ × ℚ,
      ps.foldl
        (fun acc p =>
          if p.points.isEmpty then acc
          else (acc.1 + pillar_score p * p.weight, acc.2 + p.weight)) acc
      = (acc.1 + ((contributing ps).map (fun p => pillar_score p * p.weight)).sum,
         acc.2 + ((contributing ps).map Pillar.weight).sum) := by
  induction ps with
  | nil =>
    intro acc
    simp [contributing]
  | cons p ps ih =>
    intro acc
    by_cases hp : p.points.isEmpty
    · rw [List.foldl_cons, if_pos hp, ih]
      have hc : contributing (p :: ps) = contributing ps := by
        simp [contributing, List.filter_cons, hp]
      rw [hc]
    · rw [List.foldl_cons, if_neg hp, ih]
      have hc : contributing (p :: ps) = p :: contributing ps := by
        simp [contributing, List.filter_cons, hp]
      rw [hc]
      simp only [List.map_cons, List.sum_cons, Prod.mk.injEq]
      constructor <;> ring

/-- The aggregation state equals the filtered sums over contributing pillars. -/
theorem aggregate_eq (ps : List Pillar) :
    aggregate ps
      = (((contributing ps).map (fun p => pillar_score p * p.weight)).sum,
         ((contributing ps).map Pillar.weight).sum) := by
  rw [aggregate, aggregate_foldl ps (0, 0)]
  norm_num

/-- Claim C1: each pillar's score is the mean of the answered criteria's
points, and the final score is the weight-normalised sum over pillars with
at least one answered criterion; a pillar with no answered criteria affects
neither numerator nor denominator, so the final score is independent of its
weight. The spec's worked example evaluates to exactly 7. -/
theorem score_aggregation_c1 (ps : List Pillar) :
    (final_score ps =
      if 0 < ((contributing ps).map Pillar.weight).sum then
        some ((((contributing ps).map (fun p => pillar_score p * p.weight)).sum)
              / ((contributing ps).map Pillar.weight).sum)
      else none)
    ∧ (∀ l₁ l₂ : List Pillar, ∀ w w' : ℚ,
        final_score (l₁ ++ ⟨w, []⟩ :: l₂) = final_score (l₁ ++ ⟨w', []⟩ :: l₂))
    ∧ final_score [⟨1, [8, 6]⟩, ⟨2, []⟩] = some 7 := by
  refine ⟨by rw [final_score, aggregate_eq], fun l₁ l₂ w w' => ?_, ?_⟩
  · have hdrop : ∀ w : ℚ, contributing (l₁ ++ ⟨w, []⟩ :: l₂) = contributing (l₁ ++ l₂) := by
      intro w
      simp [contributing, List.filter_append, List.filter_cons]
    rw [final_score, final_score, aggregate_eq, aggregate_eq, hdrop, hdrop]
  · norm_num [final_score, aggregate, pillar_score, List.isEmpty]

/-- Claim C4 counterexample: `calculate_weighted_score` does emit the
default score `0` when the total weight is `0` — indistinguishable from the
genuine zero score it returns for a zero-valued criterion with positive
weight. -/
theorem weighted_score_zero_default_c4_cex :
    calculate_weighted_score [("a", 0)] [("a", 1)] = 0
    ∧ calculate_weighted_score [("a", 5)] [("a", 0)] = 0 := by
  constructor <;> norm_num [calculate_weighted_score, List.lookup]

/-- Claim C4 as amended: `calculate_weighted_score` never divides by zero
but returns the default `0` when the total weight is zero, while the wizard
guards `total_weight > 0` and presents no final score at all when no pillar
contributed. -/
theorem weighted_score_guard_c4 :
    (∀ scores weights : List (String × ℚ), (weights.map Prod.snd).sum = 0 →
        calculate_weighted_score scores weights = 0)
    ∧ (∀ ps : List Pillar, ¬ 0 < (aggregate ps).2 → final_score ps = none)
    ∧ (∀ ps : List Pillar, 0 < (aggregate ps).2 →
        final_score ps = some ((aggregate ps).1 / (aggregate ps).2)) := by
  refine ⟨fun scores weights h => ?_, fun ps h => ?_, fun ps h => ?_⟩
  · rw [calculate_weighted_score]
    simp [h]
  · rw [final_score, if_neg h]
  · rw [final_score, if_pos h]

/-- Witness for the amended C4 at concrete inputs. -/
theorem weighted_score_guard_c4_witness :
    ((([("a", (0 : ℚ))].map Prod.snd).sum = 0
        ∧ calculate_weighted_score [("b", 5)] [("a", 0)] = 0)
      ∧ (¬ 0 < (aggregate [⟨2, []⟩]).2 ∧ final_score [⟨2, []⟩] = none)
      ∧ (0 < (aggregate [⟨1, [5]⟩]).2
        ∧ final_score [⟨1, [5]⟩]
            = some ((aggregate [⟨1, [5]⟩]).1 / (aggregate [⟨1, [5]⟩]).2))) :=
  ⟨⟨by norm_num, weighted_score_guard_c4.1 [("b", 5)] [("a", 0)] (by norm_num)⟩,
   ⟨by norm_num [aggregate, List.isEmpty],
    weighted_score_guard_c4.2.1 [⟨2, []⟩] (by norm_num [aggregate, List.isEmpty])⟩,
   ⟨by norm_num [aggregate, List.isEmpty, pillar_score],
    weighted_score_guard_c4.2.2 [⟨1, [5]⟩] (by norm_num [aggregate, List.isEmpty, pillar_score])⟩⟩

/-- Claim C9: `get_active_methodology` ignores the `is_active` flag — with
exactly one active record (the older row), it returns the most recently
created, inactive row instead. -/
theorem get_active_methodology_ignores_flag_c9 :
    (([⟨1, 100, true⟩, ⟨2, 200, false⟩] : List Methodology).filter
        (fun m => m.is_active)).length = 1
    ∧ get_active_methodology [⟨1, 100, true⟩, ⟨2, 200, false⟩] = some ⟨2, 200, false⟩
    ∧ (⟨2, 200, false⟩ : Methodology).is_active = false := by
  refine ⟨rfl, ?_, rfl⟩
  decide

/-- Sum of a function mapped over `List.range` as a `Finset` sum. -/
theorem sum_map_range (f : ℕ → ℚ) : ∀ n : ℕ,
    ((List.range n).map f).sum = ∑ i in Finset.range n, f i := by
  intro n
  induction n with
  | zero => simp
  | succ k ih =>
    rw [List.range_succ, List.map_append, List.sum_append, Finset.sum_range_succ, ih]
    simp

/-- Running `ipca_plus_valuation` on a positive horizon: closed form of the
returned record. -/
theorem ipca_run (ipca d premium : ℚ) (k : ℕ) :
    ipca_plus_valuation ipca d premium (k + 1) = .ok
      { fair_value :=
          ((List.range (k + 1)).map
            (fun i => d * 12 * (1 + ipca) ^ (i + 1) / (1 + (ipca + premium)) ^ (i + 1))).sum
          + (d * 12 * (1 + ipca) ^ (k + 1) * (1 + ipca) / (ipca + premium - ipca))
            / (1 + (ipca + premium)) ^ (k + 1),
        annual_return := ipca + premium,
        projected_dividends :=
          (List.range (k + 1)).map (fun i => d * 12 * (1 + ipca) ^ (i + 1)),
        terminal_value := d * 12 * (1 + ipca) ^ (k + 1) * (1 + ipca) / (ipca + premium - ipca),
        ipca_used := ipca } := by
  have hlast : ((List.range (k + 1)).map (fun i => d * 12 * (1 + ipca) ^ (i + 1))).getLast?
      = some (d * 12 * (1 + ipca) ^ (k + 1)) := by
    rw [List.range_succ, List.map_append, List.map_singleton, List.getLast?_concat]
  simp only [ipca_plus_valuation, hlast]

/-- Claim C5: the IPCA+ valuation uses discount rate `ipca + premium` and
annual dividend `12·d`, projects exactly `years` dividends with the year-`y`
entry `12·d·(1+ipca)^y` (each successive entry the prior one scaled by
`(1+ipca)`), and returns as fair value the sum of the discounted projected
dividends plus the terminal value — last projected dividend grown by
`(1+ipca)` and divided by `(discount − ipca)` — discounted back `years`
periods. -/
theorem ipca_plus_projection_c5 (ipca d premium : ℚ) (years : ℕ) (h : 1 ≤ years) :
    ∃ res, ipca_plus_valuation ipca d premium years = .ok res
      ∧ res.annual_return = ipca + premium
      ∧ res.ipca_used = ipca
      ∧ res.projected_dividends.length = years
      ∧ (∀ i, i < years →
          res.projected_dividends[i]? = some (12 * d * (1 + ipca) ^ (i + 1)))
      ∧ (∀ i, i + 1 < years →
          res.projected_dividends[i + 1]?
            = (res.projected_dividends[i]?).map (fun x => x * (1 + ipca)))
      ∧ res.fair_value =
          (∑ i in Finset.range years,
            12 * d * (1 + ipca) ^ (i + 1) / (1 + (ipca + premium)) ^ (i + 1))
          + (12 * d * (1 + ipca) ^ years * (1 + ipca) / (ipca + premium - ipca))
            / (1 + (ipca + premium)) ^ years := by
  obtain ⟨k, rfl⟩ : ∃ k, years = k + 1 := ⟨years - 1, (Nat.succ_pred_eq_of_pos h).symm⟩
  refine ⟨_, ipca_run ipca d premium k, rfl, rfl, ?_, ?_, ?_, ?_⟩
  · simp
  · intro i hi
    rw [List.getElem?_map, List.getElem?_range hi, Option.map_some']
    congr 1
    ring
  · intro i hi
    rw [List.getElem?_map, List.getElem?_map, List.getElem?_range hi,
      List.getElem?_range (by omega : i < k + 1), Option.map_some', Option.map_some',
      Option.map_some']
    congr 1
    ring
  · show ((List.range (k + 1)).map
        (fun i => d * 12 * (1 + ipca) ^ (i + 1) / (1 + (ipca + premium)) ^ (i + 1))).sum
        + _ = _
    rw [sum_map_range]
    have hsum : ∑ i in Finset.range (k + 1),
          d * 12 * (1 + ipca) ^ (i + 1) / (1 + (ipca + premium)) ^ (i + 1)
        = ∑ i in Finset.range (k + 1),
          12 * d * (1 + ipca) ^ (i + 1) / (1 + (ipca + premium)) ^ (i + 1) :=
      Finset.sum_congr rfl (fun i _ => by ring)
    rw [hsum]
    congr 1
    ring

/-- Witness for C5 at the spec's concrete shape (monthly dividend 100/12,
ipca 4.5%, premium 6%, 10 years). -/
theorem ipca_plus_projection_c5_witness :
    (1 ≤ 10)
    ∧ (∃ res, ipca_plus_valuation (9 / 200) (100 / 12) (6 / 100) 10 = .ok res
      ∧ res.annual_return = 9 / 200 + 6 / 100
      ∧ res.ipca_used = 9 / 200
      ∧ res.projected_dividends.length = 10
      ∧ (∀ i, i < 10 →
          res.projected_dividends[i]? = some (12 * (100 / 12) * (1 + 9 / 200) ^ (i + 1)))
      ∧ (∀ i, i + 1 < 10 →
          res.projected_dividends[i + 1]?
            = (res.projected_dividends[i]?).map (fun x => x * (1 + 9 / 200)))
      ∧ res.fair_value =
          (∑ i in Finset.range 10,
            12 * (100 / 12) * (1 + 9 / 200) ^ (i + 1) / (1 + (9 / 200 + 6 / 100)) ^ (i + 1))
          + (12 * (100 / 12) * (1 + 9 / 200) ^ 10 * (1 + 9 / 200)
              / (9 / 200 + 6 / 100 - 9 / 200))
            / (1 + (9 / 200 + 6 / 100)) ^ 10) :=
  ⟨by norm_num, ipca_plus_projection_c5 (9 / 200) (100 / 12) (6 / 100) 10 (by norm_num)⟩

end EzValuation
